import Mathlib

unseal Rat.mul Rat.add Rat.inv Rat.sub

/-!
Verification development for the stock fetch / recommend / regress pipeline
(`Final_Project_automatic.py` and its near-identical twin
`Final_Project_automatic_v12.py`; the two files define the same
`fetch_last_60_days_prices`, `analyze_and_recommend` and `perform_regression`
functions, so a single embedding covers both).

Numeric model: pandas/numpy floating-point values are embedded as `PFloat`,
an idealized IEEE-like value: `nan`, a signed infinity, or an exact rational.
Exact rational arithmetic never overflows, so float overflow-to-infinity is
not modelled; the special-value propagation rules (NaN propagation, inf
arithmetic, division by zero) follow IEEE 754 without signed zeros.
-/

/-- An idealized floating-point value: NaN, a signed infinity
(`inf true` is positive infinity), or an exact rational. -/
inductive PFloat : Type where
  | nan : PFloat
  | inf : Bool → PFloat
  | val : ℚ → PFloat
deriving DecidableEq, Repr, Inhabited

/-- NaN test. -/
def PFloat.isNan : PFloat → Bool
  | .nan => true
  | _ => false

/-- Finiteness test: true exactly on rational (non-NaN, non-infinite) values. -/
def PFloat.isFinite : PFloat → Bool
  | .val _ => true
  | _ => false

/-- IEEE-style negation. -/
def pneg : PFloat → PFloat
  | .nan => .nan
  | .inf b => .inf (!b)
  | .val q => .val (-q)

/-- IEEE-style addition: NaN propagates, opposite infinities give NaN. -/
def padd : PFloat → PFloat → PFloat
  | .nan, _ => .nan
  | _, .nan => .nan
  | .inf b₁, .inf b₂ => if b₁ = b₂ then .inf b₁ else .nan
  | .inf b, .val _ => .inf b
  | .val _, .inf b => .inf b
  | .val a, .val b => .val (a + b)

/-- IEEE-style subtraction. -/
def psub (a b : PFloat) : PFloat := padd a (pneg b)

/-- IEEE-style multiplication: NaN propagates, infinity times zero is NaN. -/
def pmul : PFloat → PFloat → PFloat
  | .nan, _ => .nan
  | _, .nan => .nan
  | .inf b₁, .inf b₂ => .inf (b₁ == b₂)
  | .inf b, .val q => if q = 0 then .nan else .inf (b == decide (0 < q))
  | .val q, .inf b => if q = 0 then .nan else .inf (b == decide (0 < q))
  | .val a, .val b => .val (a * b)

/-- IEEE-style division: NaN propagates, inf/inf is NaN, finite/inf is 0,
x/0 is NaN when x = 0 and a signed infinity otherwise (zero treated as +0). -/
def pdiv : PFloat → PFloat → PFloat
  | .nan, _ => .nan
  | _, .nan => .nan
  | .inf _, .inf _ => .nan
  | .inf b, .val q => if q < 0 then .inf (!b) else .inf b
  | .val _, .inf _ => .val 0
  | .val a, .val b =>
    if b = 0 then (if a = 0 then .nan else .inf (decide (0 < a)))
    else .val (a / b)

/-- Floor square root of a natural number, as the largest k with k * k ≤ n
(a structurally computable equivalent of Nat.sqrt). -/
def natSqrtLin (n : Nat) : Nat :=
  ((List.range (n + 1)).filter (fun k => k * k ≤ n)).getLastD 0

/-- Rational square-root approximation, the same construction as Mathlib's
Rat.sqrt (floor sqrt of the numerator over floor sqrt of the denominator). -/
def ratSqrt (q : ℚ) : ℚ := mkRat (natSqrtLin q.num.toNat) (natSqrtLin q.den)

/-- Square root, class-preserving stand-in for the float sqrt: NaN on NaN and
negatives, +inf on +inf, and the rational approximation ratSqrt on
nonnegative rationals (exact on perfect squares; the verified claims depend
only on the zero / positive / NaN / infinite class of the result). -/
def psqrt : PFloat → PFloat
  | .nan => .nan
  | .inf b => if b then .inf true else .nan
  | .val q => if q < 0 then .nan else .val (ratSqrt q)

/-- Sum of a list of floats (numpy-style reduction; empty sum is 0). -/
def psum (l : List PFloat) : PFloat := l.foldr padd (.val 0)

/-- Drop the NaN entries of a column (pandas skipna behaviour). -/
def dropNan (l : List PFloat) : List PFloat := l.filter (fun x => !x.isNan)

/-- pandas Series.mean with skipna: the mean of the non-NaN entries,
NaN when there are none. -/
def pmean (l : List PFloat) : PFloat :=
  let v := dropNan l
  if v = [] then .nan else pdiv (psum v) (.val v.length)

/-- pandas Series.std with skipna and ddof = 1: the sample standard deviation
of the non-NaN entries, NaN when there are fewer than two of them. -/
def pstd (l : List PFloat) : PFloat :=
  let v := dropNan l
  if v.length < 2 then .nan
  else
    let m := pmean l
    psqrt (pdiv (psum (v.map (fun x => pmul (psub x m) (psub x m))))
      (.val (v.length - 1)))

/-- pandas groupby 'last' aggregation: last non-NaN entry, NaN if none. -/
def plast (l : List PFloat) : PFloat := (dropNan l).getLastD .nan

/-- Total comparison used to embed pandas descending sorts with
na_position = 'last': a linear preorder placing NaN below -inf, below the
rationals, below +inf.  On non-NaN operands it is the usual IEEE order;
making NaN bottom realises the NaN-last placement of a descending sort. -/
def pfLe : PFloat → PFloat → Bool
  | .nan, _ => true
  | _, .nan => false
  | .inf false, _ => true
  | _, .inf false => false
  | .val _, .inf true => true
  | .inf true, .inf true => true
  | .inf true, .val _ => false
  | .val a, .val b => decide (a ≤ b)

/-- NaN-propagating binary maximum (numpy max). -/
def pmax2 (a b : PFloat) : PFloat :=
  if a.isNan || b.isNan then .nan else if pfLe a b then b else a

/-- NaN-propagating binary minimum (numpy min). -/
def pmin2 (a b : PFloat) : PFloat :=
  if a.isNan || b.isNan then .nan else if pfLe a b then a else b

/-- One record of the MarketStack eod response / one row of the price table.
The embedding keeps the columns the pipeline reads (symbol, date, adjusted
open/close, dividend, volume, raw open/close) plus the percent_change column
added by analyze_and_recommend; `none` models the column being absent.
Dates are embedded as integers (ISO date strings order identically). -/
structure PriceRecord : Type where
  symbol : String
  date : Int
  openPrice : PFloat
  closePrice : PFloat
  volume : PFloat
  dividend : PFloat
  adj_open : PFloat
  adj_close : PFloat
  percent_change : Option PFloat := none
deriving DecidableEq, Repr, Inhabited

/-- The shared tabular dataset.  Column-level state of the DataFrame that is
not per-row (whether the date column has been converted by pd.to_datetime)
is carried as a table-level flag. -/
structure PriceTable : Type where
  rows : List PriceRecord
  dateIsDatetime : Bool := false
deriving DecidableEq, Repr, Inhabited

/-- Outcome of one requests.get call for one symbol: an exception during the
request, or a response with a status code and an optional 'data' array. -/
inductive HttpResponse (α : Type) : Type where
  | exn : HttpResponse α
  | resp : Nat → Option (List α) → HttpResponse α
deriving DecidableEq, Repr

/-- The per-symbol branch of the fetch loop: a symbol contributes its record
list exactly when the request returned status 200 with a non-empty 'data'
array; exceptions, non-200 statuses, and missing or empty 'data' contribute
nothing (they are logged and skipped). -/
def fetchStep {α : Type} : HttpResponse α → Option (List α)
  | .exn => none
  | .resp status dataField =>
    if status = 200 then
      match dataField with
      | some rows => if rows.isEmpty then none else some rows
      | none => none
    else none

/-- fetch_last_60_days_prices, with the per-symbol HTTP outcomes passed in
explicitly.  Returns the combined dataset and the list of CSV files written:
when at least one symbol succeeded the non-empty per-symbol frames are
concatenated in request order and the raw CSV is written; otherwise the
result is the empty table and no file is written. -/
def fetch_last_60_days_prices {α : Type} (responses : List (HttpResponse α)) :
    List α × List String :=
  let all_data := responses.filterMap fetchStep
  if all_data.isEmpty then ([], [])
  else
    let non_empty_data := all_data.filter (fun d => !d.isEmpty)
    (non_empty_data.flatten, ["last_60_days_prices.csv"])

/-- The combined dataset produced by the fetch stage (first component of
fetch_last_60_days_prices, see fetch_fst below). -/
def combinedData {α : Type} (responses : List (HttpResponse α)) : List α :=
  ((responses.filterMap fetchStep).filter (fun d => !d.isEmpty)).flatten

/-- Lexicographic (symbol, date) comparison used by
data.sort_values(by=['symbol', 'date']). -/
def symbolDateLeb (a b : PriceRecord) : Bool :=
  if a.symbol = b.symbol then decide (a.date ≤ b.date)
  else decide (a.symbol < b.symbol)

/-- data.sort_values(by=['symbol', 'date'], inplace=True).  pandas' default
kind='quicksort' leaves the order of tied rows unspecified; the embedding
realises the sort as a stable insertion sort, one admissible behaviour. -/
def sortSymbolDate (l : List PriceRecord) : List PriceRecord :=
  l.insertionSort (fun a b => symbolDateLeb a b = true)

/-- data['percent_change'] = ((adj_close - adj_open) / adj_open) * 100,
for one row. -/
def addPercentChange (r : PriceRecord) : PriceRecord :=
  { r with
    percent_change :=
      some (pmul (pdiv (psub r.adj_close r.adj_open) r.adj_open) (.val 100)) }

/-- Helper for uniqueFirst, carrying the set of symbols already seen. -/
def uniqueFirstAux (seen : List String) : List String → List String
  | [] => []
  | x :: xs =>
    if x ∈ seen then uniqueFirstAux seen xs
    else x :: uniqueFirstAux (x :: seen) xs

/-- pandas Series.unique: the distinct values in order of first appearance.
This also embeds the groupby('symbol') key list in analyze_and_recommend,
where the rows are already sorted by symbol, so first-appearance order
coincides with the sorted key order pandas groupby produces. -/
def uniqueFirst (l : List String) : List String := uniqueFirstAux [] l

/-- One row of the per-symbol performance table built by
analyze_and_recommend. -/
structure PerformanceRow : Type where
  symbol : String
  avg_percent_change : PFloat
  volatility : PFloat
  last_closing_price : PFloat
  avg_dividend : PFloat
  score : PFloat
deriving DecidableEq, Repr, Inhabited

/-- The groupby('symbol').agg row for one symbol, together with the derived
score column: mean and sample std of percent_change, last adj_close, mean
dividend, and score = avg_percent_change / volatility. -/
def mkPerfRow (s : String) (rs : List PriceRecord) : PerformanceRow :=
  let pcs := rs.map (fun r => r.percent_change.getD .nan)
  let avg := pmean pcs
  let vol := pstd pcs
  { symbol := s
    avg_percent_change := avg
    volatility := vol
    last_closing_price := plast (rs.map (fun r => r.adj_close))
    avg_dividend := pmean (rs.map (fun r => r.dividend))
    score := pdiv avg vol }

/-- DataFrame.sort_values(by=key, ascending=False) with the default
na_position='last': rows are ordered descending by the key with NaN keys
placed after all non-NaN keys, in their original relative order (pandas
nargsort appends the NaN positions unchanged).  pandas' default
kind='quicksort' leaves the relative order of equal non-NaN keys
unspecified; the embedding realises it as a stable insertion sort (the
behaviour kind='mergesort' would guarantee), one admissible behaviour.
NaN-last placement is obtained by sorting descending with respect to a
total order that puts NaN at the bottom. -/
def sortValuesDesc {α : Type} (key : α → PFloat) (l : List α) : List α :=
  l.insertionSort (fun a b => pfLe (key b) (key a) = true)

/-- Everything observable about one analyze_and_recommend call: the returned
performance table and top-5 slice, the state of the (mutated in place) input
table afterwards, the CSV files written, and whether the
"No data available for analysis." notice was printed. -/
structure AnalyzeOutput : Type where
  performance : List PerformanceRow
  top5 : List PerformanceRow
  mutated : PriceTable
  writes : List String
  notice : Bool
deriving DecidableEq, Repr

/-- The rows of the table after the in-place mutation performed by
analyze_and_recommend: re-sorted by (symbol, date) and with the
percent_change column assigned (computed on the sorted frame, which row-wise
equals mapping over the sorted rows). -/
def analyzeRows (t : PriceTable) : List PriceRecord :=
  (sortSymbolDate t.rows).map addPercentChange

/-- The per-symbol performance table of analyze_and_recommend:
data.groupby('symbol').agg(...) plus the derived score column.  The group
keys are the distinct symbols (the rows being sorted by symbol, the
first-appearance order below coincides with the sorted key order pandas
groupby produces), and each group keeps the row order of the sorted frame. -/
def analyzePerformance (t : PriceTable) : List PerformanceRow :=
  (uniqueFirst ((analyzeRows t).map (fun r => r.symbol))).map
    (fun s => mkPerfRow s ((analyzeRows t).filter (fun r => r.symbol == s)))

/-- analyze_and_recommend.  On an empty table it prints a notice and returns
two empty tables, writing nothing and leaving the input untouched.
Otherwise it mutates the input in place (date converted by pd.to_datetime,
rows re-sorted by (symbol, date), percent_change column added), builds the
per-symbol performance table, sorts it descending by score to take the top
5, and writes the top-5 slice (only) to top_5_recommendations.csv. -/
def analyze_and_recommend (t : PriceTable) : AnalyzeOutput :=
  if t.rows = [] then
    { performance := [], top5 := [], mutated := t, writes := [], notice := true }
  else
    { performance := analyzePerformance t
      top5 := (sortValuesDesc (fun r => r.score) (analyzePerformance t)).take 5
      mutated := { rows := analyzeRows t, dateIsDatetime := true }
      writes := ["top_5_recommendations.csv"]
      notice := false }

/-- One row of the regression metrics table: one fitted parameter of one
symbol's OLS fit.  The two-sided p-value and the 95% confidence bounds
require the Student-t distribution, which is transcendental and has no exact
rational embedding; they are carried as NaN placeholders (no verified claim
depends on their numeric values). -/
structure RegressionRow : Type where
  symbol : String
  var : String
  coef : PFloat
  std_err : PFloat
  tval : PFloat
  pvalue : PFloat
  ciLow : PFloat
  ciHigh : PFloat
  score : PFloat
deriving DecidableEq, Repr, Inhabited

/-- The parts of a fitted statsmodels OLS results object the pipeline reads:
parameter names in output order, estimates, standard errors, and the
adjusted R-squared. -/
structure OlsResult : Type where
  names : List String
  coefs : List PFloat
  bses : List PFloat
  adjR2 : PFloat
deriving Repr

/-- The sm.add_constant(X) column check (statsmodels add_trend with
has_constant='skip'): the intercept column is NOT added when the existing
adj_open column is constant (max - min == 0) with non-zero first entry. -/
def isNonzeroConstCol (xs : List PFloat) : Bool :=
  match xs with
  | [] => false
  | x :: rest =>
    (psub (rest.foldl pmax2 x) (rest.foldl pmin2 x) == PFloat.val 0)
      && !(x == PFloat.val 0)

/-- OLS of ys on xs in the branch where add_constant skipped adding an
intercept column: this happens exactly when xs itself is a constant non-zero
column, which statsmodels' constant detection recognises as the model's
constant, so k_constant = 1 and rsquared uses the CENTERED total sum of
squares, while the design rank (hence df_resid = n - 1) stays 1.  The slope
is the single-regressor least-squares estimate Σxy/Σx², and adjusted
R-squared follows the statsmodels formula
1 - (nobs - k_constant)/df_resid * (1 - rsquared) = 1 - (n-1)/(n-1) * (1 - r²)
(every degenerate case flows through the IEEE rules, e.g. a single row gives
0/0 = NaN throughout). -/
def olsNoConst (xs ys : List PFloat) : OlsResult :=
  let n : ℚ := xs.length
  let sxx := psum (xs.map (fun x => pmul x x))
  let sxy := psum (List.zipWith pmul xs ys)
  let slope := pdiv sxy sxx
  let resid := List.zipWith (fun x y => psub y (pmul slope x)) xs ys
  let ssr := psum (resid.map (fun e => pmul e e))
  let ybar := pdiv (psum ys) (.val n)
  let ctss := psum (ys.map (fun y => pmul (psub y ybar) (psub y ybar)))
  let r2 := psub (.val 1) (pdiv ssr ctss)
  let adjR2 :=
    psub (.val 1)
      (pmul (pdiv (.val (n - 1)) (.val (n - 1))) (psub (.val 1) r2))
  let sigma2 := pdiv ssr (.val (n - 1))
  { names := ["adj_open"]
    coefs := [slope]
    bses := [psqrt (pdiv sigma2 sxx)]
    adjR2 := adjR2 }

/-- OLS of ys on xs with an intercept (prepended 'const' column): the usual
centered closed-form estimates; rsquared uses the centered total sum of
squares and adjusted R-squared is 1 - (n-1)/(n-2) * (1 - rsquared)
(statsmodels formula with k_constant = 1 and df_resid = n - 2; rank
deficiency is not modelled and degenerates through the IEEE rules). -/
def olsWithConst (xs ys : List PFloat) : OlsResult :=
  let n : ℚ := xs.length
  let xbar := pdiv (psum xs) (.val n)
  let ybar := pdiv (psum ys) (.val n)
  let sxx := psum (xs.map (fun x => pmul (psub x xbar) (psub x xbar)))
  let sxy :=
    psum (List.zipWith (fun x y => pmul (psub x xbar) (psub y ybar)) xs ys)
  let slope := pdiv sxy sxx
  let icept := psub ybar (pmul slope xbar)
  let resid :=
    List.zipWith (fun x y => psub y (padd icept (pmul slope x))) xs ys
  let ssr := psum (resid.map (fun e => pmul e e))
  let ctss := psum (ys.map (fun y => pmul (psub y ybar) (psub y ybar)))
  let r2 := psub (.val 1) (pdiv ssr ctss)
  let adjR2 :=
    psub (.val 1)
      (pmul (pdiv (.val (n - 1)) (.val (n - 2))) (psub (.val 1) r2))
  let sigma2 := pdiv ssr (.val (n - 2))
  { names := ["const", "adj_open"]
    coefs := [icept, slope]
    bses :=
      [psqrt (pmul sigma2
          (padd (pdiv (.val 1) (.val n)) (pdiv (pmul xbar xbar) sxx))),
        psqrt (pdiv sigma2 sxx)]
    adjR2 := adjR2 }

/-- The regression loop body for one symbol: X = rows' adj_open column,
y = adj_close, X = sm.add_constant(X) (which skips the intercept on a
non-zero constant column), OLS fit, then one output row per fitted
parameter, every row carrying the model's adjusted R-squared as score. -/
def regressionRows (s : String) (rs : List PriceRecord) : List RegressionRow :=
  let xs := rs.map (fun r => r.adj_open)
  let ys := rs.map (fun r => r.adj_close)
  let fit := if isNonzeroConstCol xs then olsNoConst xs ys
    else olsWithConst xs ys
  (fit.names.zip (fit.coefs.zip fit.bses)).map (fun p =>
    { symbol := s
      var := p.1
      coef := p.2.1
      std_err := p.2.2
      tval := pdiv p.2.1 p.2.2
      pvalue := .nan
      ciLow := .nan
      ciHigh := .nan
      score := fit.adjR2 })

/-- Row-level dropna test: true when some present column of the row is NaN
(such a row is dropped by data.dropna()). -/
def rowHasNan (r : PriceRecord) : Bool :=
  r.openPrice.isNan || r.closePrice.isNan || r.volume.isNan
    || r.dividend.isNan || r.adj_open.isNan || r.adj_close.isNan
    || (match r.percent_change with
        | some p => p.isNan
        | none => false)

/-- Everything observable about one perform_regression call: the full
metrics table, the const-filtered top-5 slice, the CSV files written, and
whether the call raises KeyError instead of returning.  When keyError is
true, the metrics/top5 fields hold the (empty) tables the aborted call had
built, not returned values. -/
structure RegressionOutput : Type where
  metrics : List RegressionRow
  top5 : List RegressionRow
  writes : List String
  keyError : Bool
deriving DecidableEq, Repr

/-- stock_data_cleaned = data.dropna(): the rows with no missing value. -/
def cleanedRows (t : PriceTable) : List PriceRecord :=
  t.rows.filter (fun r => !rowHasNan r)

/-- The full regression metrics table: the concatenation, over the distinct
symbols of the cleaned table in first-appearance order, of each symbol's
per-parameter row block. -/
def regressionMetrics (t : PriceTable) : List RegressionRow :=
  ((uniqueFirst ((cleanedRows t).map (fun r => r.symbol))).map
    (fun s => regressionRows s ((cleanedRows t).filter (fun r => r.symbol == s)))).flatten

/-- perform_regression: dropna, iterate over the distinct symbols of the
cleaned table in first-appearance order, fit OLS of adj_close on adj_open
per symbol and concatenate the per-symbol row blocks; write the metrics CSV
(line 116, unconditional); filter the intercept ('const') rows, sort them
descending by score, take the first 5 and write the top-5 CSV.  When no
symbol was fitted, stock_metrics is still the column-less pd.DataFrame(),
so selecting its 'variable' column on line 119 raises KeyError: the call
then raises after writing only the metrics CSV, recorded by keyError.  (A
completely column-less input frame would already raise at line 85 on the
'symbol' column before any write; the embedding's record type always
carries the columns, and the pipeline's empty-data exit guard keeps such
frames from reaching this stage.) -/
def perform_regression (t : PriceTable) : RegressionOutput :=
  { metrics := regressionMetrics t
    top5 :=
      (sortValuesDesc (fun r => r.score)
        ((regressionMetrics t).filter (fun r => r.var == "const"))).take 5
    writes :=
      if (regressionMetrics t).isEmpty then ["stock_regression_metrics.csv"]
      else ["stock_regression_metrics.csv", "top_5_stocks_regression.csv"]
    keyError := (regressionMetrics t).isEmpty }

/-- Observable outcome of one module-level pipeline run (lines 139-196):
the fetched table, whether the data.empty guard printed its message and
exited before any analysis, the analyze and regression outcomes when the
run went on, and whether an uncaught exception escaped the run. -/
structure PipelineResult : Type where
  fetched : List PriceRecord
  exitedEarly : Bool
  analysis : Option AnalyzeOutput
  regression : Option RegressionOutput
  raised : Bool
deriving DecidableEq, Repr

/-- The module-level pipeline: fetch; if the fetched table is empty, print
"No data available from API. Exiting..." and exit() before any analysis or
regression; otherwise convert the date column (line 144), run
analyze_and_recommend (which mutates the shared table in place) and then
perform_regression on the mutated table.  The only uncaught exception the
embedding models is the regression stage's KeyError, which would escape the
run (there is no try/except around lines 195-196). -/
def runPipeline (responses : List (HttpResponse PriceRecord)) : PipelineResult :=
  let fetched := (fetch_last_60_days_prices responses).1
  if fetched = [] then
    { fetched := fetched, exitedEarly := true, analysis := none,
      regression := none, raised := false }
  else
    let a := analyze_and_recommend { rows := fetched, dateIsDatetime := true }
    let r := perform_regression a.mutated
    { fetched := fetched, exitedEarly := false, analysis := some a,
      regression := some r, raised := r.keyError }

/-- Concrete table: one symbol with two rising days (distinct adj_open). -/
def sampleA : PriceTable :=
  { rows :=
      [ { symbol := "AAA", date := 0, openPrice := .val 10,
          closePrice := .val 11, volume := .val 1, dividend := .val 0,
          adj_open := .val 10, adj_close := .val 11 },
        { symbol := "AAA", date := 1, openPrice := .val 20,
          closePrice := .val 21, volume := .val 1, dividend := .val 0,
          adj_open := .val 20, adj_close := .val 21 } ] }

/-- Concrete table: one symbol with five flat days (adj_close = adj_open
every day, so every percent_change is 0 and the volatility is 0). -/
def flatT : PriceTable :=
  { rows :=
      [0, 1, 2, 3, 4].map (fun d =>
        { symbol := "BBB", date := d, openPrice := .val 7,
          closePrice := .val 7, volume := .val 1, dividend := .val 0,
          adj_open := .val 7, adj_close := .val 7 }) }

/-- Concrete table: one symbol with a single clean row (all columns
present), as reaches perform_regression after the percent_change column has
been added. -/
def soloT : PriceTable :=
  { rows :=
      [ { symbol := "SOLO", date := 0, openPrice := .val 10,
          closePrice := .val 20, volume := .val 1, dividend := .val 0,
          adj_open := .val 10, adj_close := .val 20,
          percent_change := some (.val 100) } ]
    dateIsDatetime := true }

/-- Concrete table: one symbol with two clean rows sharing the same non-zero
adj_open (a constant regressor column). -/
def constColT : PriceTable :=
  { rows :=
      [ { symbol := "CC", date := 0, openPrice := .val 5,
          closePrice := .val 6, volume := .val 1, dividend := .val 0,
          adj_open := .val 5, adj_close := .val 6,
          percent_change := some (.val 20) },
        { symbol := "CC", date := 1, openPrice := .val 5,
          closePrice := .val 7, volume := .val 1, dividend := .val 0,
          adj_open := .val 5, adj_close := .val 7,
          percent_change := some (.val 40) } ]
    dateIsDatetime := true }

/-- Concrete fetch outcomes in which every request fails: an exception, a
non-200 status without and with a body, a 200 response with no data array,
and a 200 response with an empty data array. -/
def failResps : List (HttpResponse PriceRecord) :=
  [HttpResponse.exn, HttpResponse.resp 404 none,
    HttpResponse.resp 500 (some soloT.rows), HttpResponse.resp 200 none,
    HttpResponse.resp 200 (some [])]

/-- Concrete fetch outcomes with one failure and one success. -/
def okResps : List (HttpResponse Nat) :=
  [HttpResponse.resp 500 none, HttpResponse.resp 200 (some [3])]

/-- Concrete fetch outcomes preceding a distinguished successful response. -/
def preResps : List (HttpResponse Nat) := [HttpResponse.exn]

/-- Concrete fetch outcomes following a distinguished successful response. -/
def postResps : List (HttpResponse Nat) := [HttpResponse.resp 200 (some [9])]

/-! Basic inversion lemmas for the PFloat arithmetic: each operation only
produces a rational value when its relevant inputs are rational. -/

theorem padd_val {a b : PFloat} {q : ℚ} (h : padd a b = .val q) :
    (∃ x, a = .val x) ∧ ∃ y, b = .val y := by
  cases a <;> cases b <;> simp_all [padd] <;> split at h <;> simp_all

theorem pneg_val {a : PFloat} {q : ℚ} (h : pneg a = .val q) : ∃ x, a = .val x := by
  cases a <;> simp_all [pneg]

theorem psub_val {a b : PFloat} {q : ℚ} (h : psub a b = .val q) :
    (∃ x, a = .val x) ∧ ∃ y, b = .val y := by
  obtain ⟨ha, y, hy⟩ := padd_val h
  exact ⟨ha, pneg_val hy⟩

theorem pmul_val {a b : PFloat} {q : ℚ} (h : pmul a b = .val q) :
    (∃ x, a = .val x) ∧ ∃ y, b = .val y := by
  cases a <;> cases b <;> simp_all [pmul] <;> split at h <;> simp_all

theorem pdiv_val_left {a : PFloat} {c q : ℚ} (h : pdiv a (.val c) = .val q) :
    ∃ x, a = .val x := by
  cases a with
  | nan => simp [pdiv] at h
  | inf b =>
    simp only [pdiv] at h
    split at h <;> simp_all
  | val x => exact ⟨x, rfl⟩

theorem psqrt_val {a : PFloat} {q : ℚ} (h : psqrt a = .val q) : ∃ p, a = .val p := by
  cases a <;> simp_all [psqrt] <;> split at h <;> simp_all

theorem psum_val {l : List PFloat} {q : ℚ} (h : psum l = .val q) :
    ∀ x ∈ l, ∃ y, x = .val y := by
  induction l generalizing q with
  | nil => simp
  | cons a l ih =>
    have hc : padd a (psum l) = .val q := h
    obtain ⟨⟨x, hx⟩, y, hy⟩ := padd_val hc
    intro z hz
    rcases List.mem_cons.mp hz with hz | hz
    · exact ⟨x, hz ▸ hx⟩
    · exact ih hy z hz

theorem pdiv_val_nonzero {a : ℚ} {q : ℚ} (hq : q ≠ 0) :
    pdiv (.val a) (.val q) = .val (a / q) := by
  simp [pdiv, hq]

theorem pdiv_zero_not_finite (a : PFloat) :
    (pdiv a (.val 0)).isFinite = false := by
  cases a with
  | nan => rfl
  | inf b => simp [pdiv, PFloat.isFinite]
  | val x =>
    by_cases hx : x = 0
    · simp [pdiv, hx, PFloat.isFinite]
    · simp [pdiv, hx, PFloat.isFinite]

theorem pdiv_nan_right (a : PFloat) : pdiv a .nan = .nan := by
  cases a <;> rfl

/-! The total order used to embed descending score sorts. -/

theorem pfLe_nan_left (b : PFloat) : pfLe .nan b = true := by
  cases b with
  | nan => rfl
  | inf t => cases t <;> rfl
  | val q => rfl

theorem pfLe_total (a b : PFloat) : pfLe a b = true ∨ pfLe b a = true := by
  cases a with
  | nan => exact Or.inl (pfLe_nan_left b)
  | inf s =>
    cases b with
    | nan => exact Or.inr (pfLe_nan_left _)
    | inf t => cases s <;> cases t <;> simp [pfLe]
    | val q => cases s <;> simp [pfLe]
  | val p =>
    cases b with
    | nan => exact Or.inr (pfLe_nan_left _)
    | inf t => cases t <;> simp [pfLe]
    | val q => simpa [pfLe] using le_total p q

theorem pfLe_trans {a b c : PFloat} (hab : pfLe a b = true)
    (hbc : pfLe b c = true) : pfLe a c = true := by
  cases a with
  | nan => exact pfLe_nan_left c
  | inf s =>
    cases b with
    | nan => simp [pfLe] at hab
    | inf t =>
      cases c with
      | nan => simp [pfLe] at hbc
      | inf u => cases s <;> cases t <;> cases u <;> simp_all [pfLe]
      | val r => cases s <;> cases t <;> simp_all [pfLe]
    | val q =>
      cases c with
      | nan => simp [pfLe] at hbc
      | inf u => cases s <;> cases u <;> simp_all [pfLe]
      | val r => cases s <;> simp_all [pfLe]
  | val p =>
    cases b with
    | nan => simp [pfLe] at hab
    | inf t =>
      cases c with
      | nan => simp [pfLe] at hbc
      | inf u => cases t <;> cases u <;> simp_all [pfLe]
      | val r => cases t <;> simp_all [pfLe]
    | val q =>
      cases c with
      | nan => simp [pfLe] at hbc
      | inf u => cases u <;> simp_all [pfLe]
      | val r =>
        simp only [pfLe, decide_eq_true_eq] at hab hbc ⊢
        exact le_trans hab hbc

instance sortValuesDescRelTotal {α : Type} (key : α → PFloat) :
    IsTotal α (fun a b => pfLe (key b) (key a) = true) :=
  ⟨fun a b => pfLe_total (key b) (key a)⟩

instance sortValuesDescRelTrans {α : Type} (key : α → PFloat) :
    IsTrans α (fun a b => pfLe (key b) (key a) = true) :=
  ⟨fun _ _ _ hab hbc => pfLe_trans hbc hab⟩

theorem sortValuesDesc_perm {α : Type} (key : α → PFloat) (l : List α) :
    List.Perm (sortValuesDesc key l) l :=
  List.perm_insertionSort _ l

theorem sortValuesDesc_sorted {α : Type} (key : α → PFloat) (l : List α) :
    List.Sorted (fun a b => pfLe (key b) (key a) = true) (sortValuesDesc key l) :=
  List.sorted_insertionSort _ l

/-! uniqueFirst: membership and freedom from duplicates. -/

theorem mem_uniqueFirstAux (l : List String) :
    ∀ (seen : List String) (a : String),
      a ∈ uniqueFirstAux seen l ↔ a ∈ l ∧ a ∉ seen := by
  induction l with
  | nil => simp [uniqueFirstAux]
  | cons x xs ih =>
    intro seen a
    simp only [uniqueFirstAux]
    split
    · rename_i hx
      rw [ih]
      constructor
      · exact fun ⟨h1, h2⟩ => ⟨List.mem_cons_of_mem x h1, h2⟩
      · rintro ⟨h1, h2⟩
        rcases List.mem_cons.mp h1 with rfl | h1
        · exact absurd hx h2
        · exact ⟨h1, h2⟩
    · rename_i hx
      rw [List.mem_cons, ih]
      constructor
      · rintro (rfl | ⟨h1, h2⟩)
        · exact ⟨List.mem_cons_self _ _, hx⟩
        · exact ⟨List.mem_cons_of_mem x h1,
            fun hs => h2 (List.mem_cons_of_mem x hs)⟩
      · rintro ⟨h1, h2⟩
        rcases List.mem_cons.mp h1 with rfl | h1
        · exact Or.inl rfl
        · by_cases hax : a = x
          · exact Or.inl hax
          · exact Or.inr ⟨h1, fun hs => by
              rcases List.mem_cons.mp hs with h | h
              · exact hax h
              · exact h2 h⟩

theorem nodup_uniqueFirstAux (l : List String) :
    ∀ seen : List String, (uniqueFirstAux seen l).Nodup := by
  induction l with
  | nil => intro seen; simp [uniqueFirstAux]
  | cons x xs ih =>
    intro seen
    simp only [uniqueFirstAux]
    split
    · exact ih seen
    · refine List.nodup_cons.mpr ⟨fun hx => ?_, ih (x :: seen)⟩
      exact ((mem_uniqueFirstAux xs (x :: seen) x).mp hx).2
        (List.mem_cons_self _ _)

theorem nodup_uniqueFirst (l : List String) : (uniqueFirst l).Nodup :=
  nodup_uniqueFirstAux l []

/-! Characterisation of a successful per-symbol fetch. -/

theorem fetchStep_eq_none_iff {α : Type} (r : HttpResponse α) :
    fetchStep r = none ↔
      ¬ ∃ rows, rows ≠ [] ∧ r = HttpResponse.resp 200 (some rows) := by
  cases r with
  | exn => simp [fetchStep]
  | resp status dataField =>
    by_cases hs : status = 200
    · subst hs
      cases dataField with
      | none => simp [fetchStep]
      | some rows =>
        by_cases hr : rows.isEmpty
        · rw [List.isEmpty_iff] at hr
          subst hr
          simp [fetchStep]
        · simp only [fetchStep, if_pos rfl, if_neg hr]
          rw [List.isEmpty_iff] at hr
          simp [hr]
    · have hne : ¬∃ rows : List α, rows ≠ [] ∧
          HttpResponse.resp status dataField = HttpResponse.resp 200 (some rows) := by
        rintro ⟨rows, hrows, heq⟩
        injection heq with h1 h2
        exact hs h1
      simp [fetchStep, hs, hne]

theorem fetch_fst {α : Type} (rs : List (HttpResponse α)) :
    (fetch_last_60_days_prices rs).1 = combinedData rs := by
  by_cases h : (rs.filterMap fetchStep).isEmpty = true
  · rw [List.isEmpty_iff] at h
    simp [fetch_last_60_days_prices, combinedData, h]
  · simp [fetch_last_60_days_prices, combinedData, h]

/-! Claim theorems. -/

/-- C1 (counterexample): on a concrete non-empty price table,
analyze_and_recommend writes exactly one CSV file (the top-5 slice), so it
does not write both the full performance table and the top-5 slice to
separate files. -/
theorem c1_only_one_csv_written :
    sampleA.rows ≠ [] ∧
    (analyze_and_recommend sampleA).writes = ["top_5_recommendations.csv"] ∧
    (analyze_and_recommend sampleA).writes.length < 2 :=
  ⟨by decide, by decide, by decide⟩

/-- C1 (amended): for every non-empty input table, the only CSV file
analyze_and_recommend writes is top_5_recommendations.csv, holding the top-5
slice; the full performance table is returned in memory but not persisted. -/
theorem c1_recommender_writes_only_top5 (t : PriceTable) (h : t.rows ≠ []) :
    (analyze_and_recommend t).writes = ["top_5_recommendations.csv"] := by
  simp [analyze_and_recommend, h]

/-- C1 (witness): the amended claim evaluated on a concrete table. -/
theorem c1_recommender_writes_only_top5_witness :
    (analyze_and_recommend sampleA).writes = ["top_5_recommendations.csv"] :=
  c1_recommender_writes_only_top5 sampleA (by decide)

/-- C3: when every per-symbol request fails (exception, bad status, missing
or empty data) — in particular for an empty symbol list — the fetch stage
returns the empty combined table and writes nothing; an empty table reaching
the analysis stage yields two empty outputs with the logged notice and no
file written; and in every such run the module-level pipeline takes the
data.empty exit before the analysis and regression stages, so no exception
escapes the run (the regression stage's KeyError path is never reached). -/
theorem c3_empty_pipeline (rs : List (HttpResponse PriceRecord))
    (h : ∀ r ∈ rs, fetchStep r = none) :
    fetch_last_60_days_prices rs = (([] : List PriceRecord), ([] : List String)) ∧
    analyze_and_recommend { rows := [] } =
      { performance := [], top5 := [], mutated := { rows := [] },
        writes := [], notice := true } ∧
    runPipeline rs =
      { fetched := [], exitedEarly := true, analysis := none,
        regression := none, raised := false } := by
  have hnil : rs.filterMap fetchStep = [] := List.filterMap_eq_nil.mpr h
  have hfetch : fetch_last_60_days_prices rs
      = (([] : List PriceRecord), ([] : List String)) := by
    simp [fetch_last_60_days_prices, hnil]
  refine ⟨hfetch, rfl, ?_⟩
  unfold runPipeline
  rw [hfetch]
  rfl

/-- C3 (witness): the empty pipeline evaluated on a concrete list of
outcomes covering every failure shape. -/
theorem c3_empty_pipeline_witness :
    fetch_last_60_days_prices failResps = (([] : List PriceRecord), ([] : List String)) ∧
    analyze_and_recommend { rows := [] } =
      { performance := [], top5 := [], mutated := { rows := [] },
        writes := [], notice := true } ∧
    runPipeline failResps =
      { fetched := [], exitedEarly := true, analysis := none,
        regression := none, raised := false } :=
  c3_empty_pipeline failResps (by decide)

/-- C7: the combined dataset concatenates the successful per-symbol record
blocks in request order and preserves every record of a successful response
exactly: if some request returned status 200 with the non-empty record list
rows, the combined dataset is the combination of the earlier blocks, then
rows itself unchanged, then the later blocks. -/
theorem c7_concat_preserves_blocks {α : Type}
    (pre post : List (HttpResponse α)) (rows : List α) (h : rows ≠ []) :
    (fetch_last_60_days_prices
        (pre ++ HttpResponse.resp 200 (some rows) :: post)).1
      = combinedData pre ++ rows ++ combinedData post := by
  rw [fetch_fst]
  unfold combinedData
  have hstep : fetchStep (HttpResponse.resp 200 (some rows)) = some rows := by
    simp [fetchStep, h]
  have hkeep : (!rows.isEmpty) = true := by simp [h]
  rw [List.filterMap_append, List.filterMap_cons, hstep]
  rw [List.filter_append, List.filter_cons]
  simp [hkeep, List.flatten_append, List.append_assoc]

/-- C7 (witness): block preservation evaluated on concrete outcomes. -/
theorem c7_concat_preserves_blocks_witness :
    (fetch_last_60_days_prices
        (preResps ++ HttpResponse.resp 200 (some [1, 2]) :: postResps)).1
      = [1, 2, 9] :=
  (c7_concat_preserves_blocks preResps postResps [1, 2] (by decide)).trans
    (by decide)

/-- C8: on every non-empty input, analyze_and_recommend mutates the shared
table in place: afterwards the date column is datetime, the rows are the
(symbol, date)-sorted originals with the percent_change column added, and
consequently a table coming from the fetch stage (where no row carries a
percent_change value) is never left equal to its original state. -/
theorem c8_analyze_mutates_input (t : PriceTable) (h : t.rows ≠ []) :
    (analyze_and_recommend t).mutated.dateIsDatetime = true ∧
    (analyze_and_recommend t).mutated.rows
      = (sortSymbolDate t.rows).map addPercentChange ∧
    ((∀ r ∈ t.rows, r.percent_change = none) →
      (analyze_and_recommend t).mutated ≠ t) := by
  refine ⟨by simp [analyze_and_recommend, h], by
    simp [analyze_and_recommend, h, analyzeRows], ?_⟩
  intro hnone heq
  have hrows : (analyze_and_recommend t).mutated.rows
      = (sortSymbolDate t.rows).map addPercentChange := by
    simp [analyze_and_recommend, h, analyzeRows]
  have hne : (analyze_and_recommend t).mutated.rows ≠ [] := by
    rw [hrows]
    intro hmap
    rw [List.map_eq_nil] at hmap
    have hlen : (sortSymbolDate t.rows).length = t.rows.length :=
      (List.perm_insertionSort _ t.rows).length_eq
    rw [hmap] at hlen
    exact h (List.eq_nil_of_length_eq_zero hlen.symm)
  obtain ⟨y, hy⟩ := List.exists_mem_of_ne_nil _ hne
  have hy2 : y ∈ (sortSymbolDate t.rows).map addPercentChange := hrows ▸ hy
  obtain ⟨x, hx, rfl⟩ := List.mem_map.mp hy2
  have hyt : addPercentChange x ∈ t.rows := by
    have := congrArg PriceTable.rows heq
    exact this ▸ hy
  have := hnone _ hyt
  simp [addPercentChange] at this

/-- C8 (witness): the mutation evaluated on a concrete fetched table. -/
theorem c8_analyze_mutates_input_witness :
    (analyze_and_recommend sampleA).mutated.dateIsDatetime = true ∧
    (analyze_and_recommend sampleA).mutated ≠ sampleA :=
  ⟨(c8_analyze_mutates_input sampleA (by decide)).1,
    (c8_analyze_mutates_input sampleA (by decide)).2.2 (by decide)⟩

/-- C9: the fetch stage writes the raw combined CSV exactly when at least
one symbol's request succeeded (status 200) with non-empty data; and when
every request fails it returns the empty table and writes no file at all
(so a previously persisted raw-data file is not touched). -/
theorem c9_fetch_writes_iff_success {α : Type} (rs : List (HttpResponse α)) :
    ((fetch_last_60_days_prices rs).2 = ["last_60_days_prices.csv"] ↔
      ∃ r ∈ rs, ∃ rows, rows ≠ [] ∧ r = HttpResponse.resp 200 (some rows)) ∧
    ((∀ r ∈ rs, fetchStep r = none) →
      fetch_last_60_days_prices rs = ([], [])) := by
  constructor
  · by_cases h : (rs.filterMap fetchStep).isEmpty = true
    · rw [List.isEmpty_iff] at h
      have hall : ∀ r ∈ rs, fetchStep r = none := List.filterMap_eq_nil.mp h
      constructor
      · intro habs
        exfalso
        revert habs
        simp [fetch_last_60_days_prices, h]
      · rintro ⟨r, hr, rows, hrows, rfl⟩
        have hnone := hall _ hr
        rw [fetchStep_eq_none_iff] at hnone
        exact absurd ⟨rows, hrows, rfl⟩ hnone
    · have hex : ∃ r ∈ rs, fetchStep r ≠ none := by
        by_contra hno
        push_neg at hno
        refine h ?_
        rw [List.isEmpty_iff]
        exact List.filterMap_eq_nil.mpr hno
      obtain ⟨r, hr, hne⟩ := hex
      have hex2 : ∃ rows, rows ≠ [] ∧ r = HttpResponse.resp 200 (some rows) := by
        by_contra hno
        exact hne ((fetchStep_eq_none_iff r).mpr hno)
      constructor
      · intro _
        obtain ⟨rows, hrows, heq⟩ := hex2
        exact ⟨r, hr, rows, hrows, heq⟩
      · intro _
        simp [fetch_last_60_days_prices, h]
  · intro hall
    have hnil : rs.filterMap fetchStep = [] := List.filterMap_eq_nil.mpr hall
    simp [fetch_last_60_days_prices, hnil]

/-- C9 (witness): the write-iff-success equivalence evaluated on concrete
outcome lists, one with a success and one with only failures. -/
theorem c9_fetch_writes_iff_success_witness :
    (fetch_last_60_days_prices okResps).2 = ["last_60_days_prices.csv"] ∧
    fetch_last_60_days_prices failResps
      = (([] : List PriceRecord), ([] : List String)) :=
  ⟨(c9_fetch_writes_iff_success okResps).1.mpr
      ⟨HttpResponse.resp 200 (some [3]), by decide, [3], by decide, rfl⟩,
    (c9_fetch_writes_iff_success failResps).2 (by decide)⟩

theorem pdiv_nan_left (a : PFloat) : pdiv .nan a = .nan := by
  cases a <;> rfl

theorem take5_spec {α : Type} (key : α → PFloat) (l : List α) :
    ((sortValuesDesc key l).take 5 ⊆ l) ∧
    ((sortValuesDesc key l).take 5).length ≤ 5 ∧
    List.Sorted (fun a b => pfLe (key b) (key a) = true)
      ((sortValuesDesc key l).take 5) := by
  refine ⟨?_, ?_, ?_⟩
  · intro a ha
    exact (sortValuesDesc_perm key l).subset (List.take_subset _ _ ha)
  · exact List.length_take_le _ _
  · exact List.Pairwise.sublist (List.take_sublist _ _)
      (sortValuesDesc_sorted key l)

/-- C5: each top-5 output is a subset of its full table of size at most 5,
sorted descending by the score column (with respect to the NaN-last order),
and the regression top-5 contains only intercept ('const') rows. -/
theorem c5_top5_shape (t : PriceTable) :
    ((analyze_and_recommend t).top5 ⊆ (analyze_and_recommend t).performance) ∧
    (analyze_and_recommend t).top5.length ≤ 5 ∧
    List.Sorted (fun a b : PerformanceRow => pfLe b.score a.score = true)
      (analyze_and_recommend t).top5 ∧
    ((perform_regression t).top5 ⊆ (perform_regression t).metrics) ∧
    (perform_regression t).top5.length ≤ 5 ∧
    List.Sorted (fun a b : RegressionRow => pfLe b.score a.score = true)
      (perform_regression t).top5 ∧
    (∀ r ∈ (perform_regression t).top5, r.var = "const") := by
  have hreg1 : (perform_regression t).top5 ⊆ (perform_regression t).metrics := by
    intro a ha
    have h1 := (take5_spec (fun r : RegressionRow => r.score)
      ((regressionMetrics t).filter (fun r => r.var == "const"))).1 ha
    exact List.mem_of_mem_filter h1
  have hregsort : List.Sorted
      (fun a b : RegressionRow => pfLe b.score a.score = true)
      (perform_regression t).top5 :=
    (take5_spec (fun r : RegressionRow => r.score)
      ((regressionMetrics t).filter (fun r => r.var == "const"))).2.2
  have hreglen : (perform_regression t).top5.length ≤ 5 :=
    (take5_spec (fun r : RegressionRow => r.score)
      ((regressionMetrics t).filter (fun r => r.var == "const"))).2.1
  have hconst : ∀ r ∈ (perform_regression t).top5, r.var = "const" := by
    intro r hr
    have h1 : r ∈ sortValuesDesc (fun r : RegressionRow => r.score)
        ((regressionMetrics t).filter (fun r => r.var == "const")) :=
      List.take_subset _ _ hr
    have h2 : r ∈ (regressionMetrics t).filter (fun r => r.var == "const") :=
      (sortValuesDesc_perm _ _).subset h1
    have h3 := List.of_mem_filter h2
    simpa using h3
  by_cases ht : t.rows = []
  · refine ⟨?_, ?_, ?_, hreg1, hreglen, hregsort, hconst⟩
    · simp [analyze_and_recommend, ht]
    · simp [analyze_and_recommend, ht]
    · simp [analyze_and_recommend, ht]
  · have e1 : (analyze_and_recommend t).performance = analyzePerformance t := by
      simp [analyze_and_recommend, ht]
    have e2 : (analyze_and_recommend t).top5
        = (sortValuesDesc (fun r : PerformanceRow => r.score)
            (analyzePerformance t)).take 5 := by
      simp [analyze_and_recommend, ht]
    refine ⟨?_, ?_, ?_, hreg1, hreglen, hregsort, hconst⟩
    · rw [e1, e2]
      exact (take5_spec (fun r : PerformanceRow => r.score)
        (analyzePerformance t)).1
    · rw [e2]
      exact (take5_spec (fun r : PerformanceRow => r.score)
        (analyzePerformance t)).2.1
    · rw [e2]
      exact (take5_spec (fun r : PerformanceRow => r.score)
        (analyzePerformance t)).2.2

/-- C5 (witness): the shape facts evaluated on a concrete table; the first
component applies the subset property to the concrete first top-5 row. -/
theorem c5_top5_shape_witness :
    ((analyze_and_recommend sampleA).top5.getD 0 default)
      ∈ (analyze_and_recommend sampleA).performance ∧
    (perform_regression sampleA).top5.length ≤ 5 :=
  ⟨(c5_top5_shape sampleA).1 (by decide), (c5_top5_shape sampleA).2.2.2.2.1⟩

theorem pstd_val_mean {l : List PFloat} {q : ℚ} (h : pstd l = .val q) :
    ∃ m, pmean l = .val m := by
  simp only [pstd] at h
  split at h
  · exact absurd h (by simp)
  · rename_i hlen
    obtain ⟨p, hp⟩ := psqrt_val h
    obtain ⟨w, hw⟩ := pdiv_val_left hp
    have hvne : dropNan l ≠ [] := by
      intro hnil
      rw [hnil] at hlen
      simp at hlen
    obtain ⟨x, hx⟩ := List.exists_mem_of_ne_nil _ hvne
    have hterm := List.mem_map_of_mem
      (fun x => pmul (psub x (pmean l)) (psub x (pmean l))) hx
    obtain ⟨y, hy⟩ := psum_val hw _ hterm
    obtain ⟨⟨z, hz⟩, -⟩ := pmul_val hy
    obtain ⟨-, m, hm⟩ := psub_val hz
    exact ⟨m, hm⟩

theorem mkPerfRow_score_classes (s : String) (rs : List PriceRecord) :
    (mkPerfRow s rs).score
      = pdiv (mkPerfRow s rs).avg_percent_change (mkPerfRow s rs).volatility ∧
    (∀ q : ℚ, (mkPerfRow s rs).volatility = PFloat.val q → q ≠ 0 →
      ((mkPerfRow s rs).score).isFinite = true) ∧
    ((mkPerfRow s rs).volatility = PFloat.val 0 →
      ((mkPerfRow s rs).score).isFinite = false) ∧
    ((mkPerfRow s rs).volatility = PFloat.nan →
      (mkPerfRow s rs).score = PFloat.nan) ∧
    ((mkPerfRow s rs).avg_percent_change = PFloat.nan →
      (mkPerfRow s rs).score = PFloat.nan) := by
  have hscore : (mkPerfRow s rs).score
      = pdiv (pmean (rs.map (fun r => r.percent_change.getD PFloat.nan)))
          (pstd (rs.map (fun r => r.percent_change.getD PFloat.nan))) := rfl
  have havg : (mkPerfRow s rs).avg_percent_change
      = pmean (rs.map (fun r => r.percent_change.getD PFloat.nan)) := rfl
  have hvol : (mkPerfRow s rs).volatility
      = pstd (rs.map (fun r => r.percent_change.getD PFloat.nan)) := rfl
  refine ⟨rfl, ?_, ?_, ?_, ?_⟩
  · intro q hq hq0
    rw [hvol] at hq
    obtain ⟨m, hm⟩ := pstd_val_mean hq
    rw [hscore, hm, hq, pdiv_val_nonzero hq0]
    rfl
  · intro h0
    rw [hvol] at h0
    rw [hscore, h0]
    exact pdiv_zero_not_finite _
  · intro hnan
    rw [hvol] at hnan
    rw [hscore, hnan, pdiv_nan_right]
  · intro hnan
    rw [havg] at hnan
    rw [hscore, hnan, pdiv_nan_left]

/-- C6: every performance row's score is avg_percent_change divided by
volatility; it is finite whenever the volatility is a non-zero rational, and
non-finite whenever the volatility is zero (division by zero) or the
volatility or average is NaN (in particular when every percent_change of the
symbol is NaN, which makes both aggregates NaN). -/
theorem c6_score_classes (t : PriceTable) (r : PerformanceRow)
    (hr : r ∈ (analyze_and_recommend t).performance) :
    r.score = pdiv r.avg_percent_change r.volatility ∧
    (∀ q : ℚ, r.volatility = PFloat.val q → q ≠ 0 → r.score.isFinite = true) ∧
    (r.volatility = PFloat.val 0 → r.score.isFinite = false) ∧
    (r.volatility = PFloat.nan → r.score = PFloat.nan) ∧
    (r.avg_percent_change = PFloat.nan → r.score = PFloat.nan) := by
  by_cases ht : t.rows = []
  · simp [analyze_and_recommend, ht] at hr
  · have hperf : (analyze_and_recommend t).performance
        = analyzePerformance t := by
      simp [analyze_and_recommend, ht]
    rw [hperf] at hr
    unfold analyzePerformance at hr
    obtain ⟨s, -, rfl⟩ := List.mem_map.mp hr
    exact mkPerfRow_score_classes s _

/-- C6 (witness): on the five-flat-days table the symbol's volatility is
zero and its 0/0 score is non-finite. -/
theorem c6_score_classes_witness :
    ((analyze_and_recommend flatT).performance.getD 0 default).volatility
      = PFloat.val 0 ∧
    (((analyze_and_recommend flatT).performance.getD 0 default).score).isFinite
      = false :=
  ⟨by decide,
    (c6_score_classes flatT
      ((analyze_and_recommend flatT).performance.getD 0 default)
      (by decide)).2.2.1 (by decide)⟩

theorem filter_filter_comm {α : Type} (p q : α → Bool) (l : List α) :
    (l.filter p).filter q = (l.filter q).filter p := by
  induction l with
  | nil => rfl
  | cons a l ih =>
    by_cases hp : p a <;> by_cases hq : q a <;>
      simp [List.filter_cons, hp, hq, ih]

theorem filter_map_var_len (K : List RegressionRow) :
    (K.filter (fun r => r.var == "const")).length
      = ((K.map (fun r => r.var)).filter (fun v => v == "const")).length := by
  induction K with
  | nil => rfl
  | cons r K ih =>
    by_cases h : r.var == "const" <;> simp [List.filter_cons, h, ih]

theorem regressionRows_symbol {s : String} {rs : List PriceRecord}
    {r : RegressionRow} (h : r ∈ regressionRows s rs) : r.symbol = s := by
  simp only [regressionRows] at h
  obtain ⟨p, -, rfl⟩ := List.mem_map.mp h
  rfl

theorem regressionRows_vars (s : String) (rs : List PriceRecord) :
    (regressionRows s rs).map (fun r => r.var) = ["adj_open"] ∨
    (regressionRows s rs).map (fun r => r.var) = ["const", "adj_open"] := by
  by_cases hc : isNonzeroConstCol (rs.map (fun r => r.adj_open))
  · left
    simp [regressionRows, hc, olsNoConst]
  · right
    simp [regressionRows, hc, olsWithConst]

theorem regressionRows_score_eq {s : String} {rs : List PriceRecord}
    {r₁ r₂ : RegressionRow} (h₁ : r₁ ∈ regressionRows s rs)
    (h₂ : r₂ ∈ regressionRows s rs) : r₁.score = r₂.score := by
  simp only [regressionRows] at h₁ h₂
  obtain ⟨p, -, rfl⟩ := List.mem_map.mp h₁
  obtain ⟨p', -, rfl⟩ := List.mem_map.mp h₂
  rfl

theorem filter_flatten_blocks (syms : List String)
    (f : String → List RegressionRow)
    (hf : ∀ s' r, r ∈ f s' → r.symbol = s') (hn : syms.Nodup) (s : String) :
    ((syms.map f).flatten.filter (fun r => r.symbol == s))
      = if s ∈ syms then f s else [] := by
  induction syms with
  | nil => simp
  | cons a rest ih =>
    obtain ⟨ha, hrest⟩ := List.nodup_cons.mp hn
    simp only [List.map_cons, List.flatten_cons, List.filter_append, ih hrest]
    by_cases hsa : s = a
    · subst hsa
      have h1 : (f s).filter (fun r => r.symbol == s) = f s :=
        List.filter_eq_self.mpr (fun r hr => by simp [hf s r hr])
      rw [h1, if_neg (fun hmem => ha hmem),
        if_pos (List.mem_cons_self s rest)]
      simp
    · have h1 : (f a).filter (fun r => r.symbol == s) = [] := by
        rw [List.filter_eq_nil]
        intro r hr
        simp only [hf a r hr, beq_iff_eq]
        exact fun h => hsa h.symm
      rw [h1]
      simp only [List.nil_append]
      by_cases hsr : s ∈ rest
      · rw [if_pos hsr, if_pos (List.mem_cons_of_mem a hsr)]
      · rw [if_neg hsr, if_neg (fun hmem => by
          rcases List.mem_cons.mp hmem with h | h
          · exact hsa h
          · exact hsr h)]

/-- C10 (amended): in the regression metrics table, each symbol's rows form
one block whose variables are exactly ['const', 'adj_open'] when the
intercept was added, exactly ['adj_open'] when add_constant skipped it (the
symbol's adj_open column being a constant non-zero column), or no rows when
the symbol was not fitted; all rows of a symbol carry the same score (the
model's adjusted R²); and the const-filtered top-5 slice contains at most
one row per symbol. -/
theorem c10_per_symbol_blocks (t : PriceTable) (s : String) :
    (((perform_regression t).metrics.filter (fun r => r.symbol == s)).map
        (fun r => r.var) = [] ∨
      ((perform_regression t).metrics.filter (fun r => r.symbol == s)).map
        (fun r => r.var) = ["adj_open"] ∨
      ((perform_regression t).metrics.filter (fun r => r.symbol == s)).map
        (fun r => r.var) = ["const", "adj_open"]) ∧
    (∀ r₁ ∈ (perform_regression t).metrics.filter (fun r => r.symbol == s),
      ∀ r₂ ∈ (perform_regression t).metrics.filter (fun r => r.symbol == s),
        r₁.score = r₂.score) ∧
    ((perform_regression t).top5.filter (fun r => r.symbol == s)).length
      ≤ 1 := by
  have hmet : (perform_regression t).metrics = regressionMetrics t := rfl
  have hblocks : (regressionMetrics t).filter (fun r => r.symbol == s)
      = if s ∈ uniqueFirst ((cleanedRows t).map (fun r => r.symbol))
        then regressionRows s ((cleanedRows t).filter (fun r => r.symbol == s))
        else [] := by
    unfold regressionMetrics
    exact filter_flatten_blocks _ _ (fun s' r hr => regressionRows_symbol hr)
      (nodup_uniqueFirst _) s
  refine ⟨?_, ?_, ?_⟩
  · rw [hmet, hblocks]
    split
    · rcases regressionRows_vars s
        ((cleanedRows t).filter (fun r => r.symbol == s)) with h | h
      · exact Or.inr (Or.inl h)
      · exact Or.inr (Or.inr h)
    · exact Or.inl rfl
  · intro r₁ h₁ r₂ h₂
    by_cases hin : s ∈ uniqueFirst ((cleanedRows t).map (fun r => r.symbol))
    · rw [hmet, hblocks, if_pos hin] at h₁ h₂
      exact regressionRows_score_eq h₁ h₂
    · rw [hmet, hblocks, if_neg hin] at h₁
      exact absurd h₁ (List.not_mem_nil _)
  · have h1 : List.Sublist
        ((perform_regression t).top5.filter (fun r => r.symbol == s))
        ((sortValuesDesc (fun r : RegressionRow => r.score)
            ((regressionMetrics t).filter (fun r => r.var == "const"))).filter
          (fun r => r.symbol == s)) :=
      List.Sublist.filter _ (List.take_sublist _ _)
    have h2 := h1.length_le
    have h3 : ((sortValuesDesc (fun r : RegressionRow => r.score)
        ((regressionMetrics t).filter (fun r => r.var == "const"))).filter
          (fun r => r.symbol == s)).length
        = (((regressionMetrics t).filter (fun r => r.var == "const")).filter
            (fun r => r.symbol == s)).length :=
      ((sortValuesDesc_perm _ _).filter _).length_eq
    have h4 : ((regressionMetrics t).filter (fun r => r.var == "const")).filter
          (fun r => r.symbol == s)
        = ((regressionMetrics t).filter (fun r => r.symbol == s)).filter
            (fun r => r.var == "const") :=
      filter_filter_comm _ _ _
    have h5 : (((regressionMetrics t).filter (fun r => r.symbol == s)).filter
        (fun r => r.var == "const")).length ≤ 1 := by
      rw [filter_map_var_len, hblocks]
      split
      · rcases regressionRows_vars s
          ((cleanedRows t).filter (fun r => r.symbol == s)) with h | h
        · rw [h]
          decide
        · rw [h]
          decide
      · simp
    rw [h3, h4] at h2
    exact h2.trans h5

/-- C10 (counterexample): on a table whose single fitted symbol has a
constant non-zero adj_open column across its two clean rows, the symbol
contributes exactly ONE metric row, with variable 'adj_open' and no 'const'
row, so the fitted symbol does not contribute a ('const', 'adj_open') row
pair. -/
theorem c10_constant_column_single_row :
    (perform_regression constColT).metrics.map (fun r => (r.symbol, r.var))
      = [("CC", "adj_open")] := by decide

/-- C10 (witness): the per-symbol block facts evaluated on a concrete
two-row symbol: its two metric rows carry the same score and the top-5
slice holds at most one of its rows. -/
theorem c10_per_symbol_blocks_witness :
    (((perform_regression sampleA).metrics.filter
        (fun r => r.symbol == "AAA")).getD 0 default).score
      = (((perform_regression sampleA).metrics.filter
        (fun r => r.symbol == "AAA")).getD 1 default).score ∧
    ((perform_regression sampleA).top5.filter
        (fun r => r.symbol == "AAA")).length ≤ 1 :=
  ⟨(c10_per_symbol_blocks sampleA "AAA").2.1 _ (by decide) _ (by decide),
    (c10_per_symbol_blocks sampleA "AAA").2.2⟩

/-- C4: the regression loop does not exclude or flag symbols with fewer than
2 clean rows.  On a table whose only symbol has exactly one clean row the
symbol is fitted anyway: it appears in the metrics table, the automatic fit
degenerates to a NaN adjusted-R² score, and (its single-row adj_open column
being a non-zero constant) the intercept is silently dropped as well. -/
theorem c4_insufficient_rows_unguarded :
    (cleanedRows soloT).length < 2 ∧
    (perform_regression soloT).metrics.map
        (fun r => (r.symbol, r.var, r.score))
      = [("SOLO", "adj_open", PFloat.nan)] :=
  ⟨by decide, by decide⟩
